import Mathlib

/-!
Shallow embedding of the ETG realtime sync/reconciliation engine
(public/etg-realtime.js client bridge and server/server.js trip API).

Modelling conventions:
* JS timestamps (`new Date().toISOString()`) are modelled as `Nat` clock values
  passed explicitly as a `now` argument; stored ISO strings are never empty, so
  a present timestamp is always truthy, which the model reflects by making
  stored timestamps plain `Nat` and raw-input timestamps `Option Nat`.
* JS objects holding trip records are modelled as a structure with the named
  fields the code reads (`id`, `reqId`, `requestId`, `status`, `createdAt`,
  `updatedAt`) plus an opaque association list `extra` for the workflow fields
  that are carried through merges uninterpreted.  `Option` encodes key absence.
* `Object.assign`/spread semantics: fields of the right operand override the
  left; `extra` keys keep JS insertion order (left keys first, then new keys).
* JS objects used as maps (`store.trips`, the `etg-trips-global` map) are
  insertion-ordered association lists; setting an existing key updates it in
  place, a new key is appended, matching JS object key iteration order.
-/

namespace ETG

/-- JS `s.toLowerCase()` (character-wise, as kernel-computable list map). -/
def jsToLower (s : String) : String :=
  String.mk (s.data.map Char.toLower)

/-- JS `s.trim()`: drop whitespace from both ends (kernel-computable). -/
def jsTrim (s : String) : String :=
  String.mk (((s.data.dropWhile Char.isWhitespace).reverse.dropWhile Char.isWhitespace).reverse)

/-- JS `a || b` on possibly-absent strings: the empty string is falsy. -/
def jsOr (a b : Option String) : Option String :=
  match a with
  | some s => if s = "" then b else some s
  | none => b

/-- Substring test on character lists, modelling JS `String.prototype.includes`. -/
def hasSubAux (pat : List Char) : List Char → Bool
  | [] => pat.isEmpty
  | c :: rest => (pat.isPrefixOf (c :: rest)) || hasSubAux pat rest

/-- JS `s.includes(pat)`. -/
def jsIncludes (s pat : String) : Bool :=
  hasSubAux pat.data s.data

/-- The six status buckets of the desk store. -/
inductive Bucket where
  | pending
  | pending_manager
  | approved
  | rejected
  | policy_violation
  | completed
deriving DecidableEq

/-- `statusBucket` from etg-realtime.js: lower-case the status and test
substring containment in the fixed source order. -/
def statusBucket (status : Option String) : Bucket :=
  let s := jsToLower (status.getD (""))
  if jsIncludes s ("completed") || jsIncludes s ("final") then Bucket.completed
  else if jsIncludes s ("approved") then Bucket.approved
  else if jsIncludes s ("rejected") then Bucket.rejected
  else if jsIncludes s ("policy") then Bucket.policy_violation
  else if jsIncludes s ("manager") then Bucket.pending_manager
  else Bucket.pending

/-- A raw trip object as received from a page, an HTTP body, or a socket
event, before normalization.  All named fields may be absent. -/
structure RawTrip where
  id : Option String
  reqId : Option String
  requestId : Option String
  status : Option String
  createdAt : Option Nat
  updatedAt : Option Nat
  extra : List (String × String)
deriving DecidableEq

/-- A normalized trip record: `id` is a non-empty trimmed string and both
timestamps are present (the normalizers guarantee this). -/
structure Trip where
  id : String
  status : Option String
  createdAt : Nat
  updatedAt : Nat
  reqId : Option String
  requestId : Option String
  extra : List (String × String)
deriving DecidableEq

/-- The empty JS object `{}` viewed as a raw trip. -/
def emptyRaw : RawTrip :=
  ⟨none, none, none, none, none, none, []⟩

/-- A normalized record re-read as a raw input (e.g. a stored record passed
back through a normalizer, or a map value pushed through `mirrorTripsToLocal`). -/
def tripToRaw (t : Trip) : RawTrip :=
  ⟨some t.id, t.reqId, t.requestId, t.status, some t.createdAt, some t.updatedAt, t.extra⟩

/-- Spread/`Object.assign` on a single optional field: the newer (right)
object's field wins when present. -/
def overrideField {α : Type} (new old : Option α) : Option α :=
  match new with
  | some v => some v
  | none => old

/-- `Object.assign({}, a, b)` restricted to the opaque fields: keys of `a`
keep their position (with `b`'s value when `b` also has the key), keys only in
`b` are appended in `b`'s order. -/
def assignFields (a b : List (String × String)) : List (String × String) :=
  (a.map (fun p => match b.lookup p.1 with
    | some v => (p.1, v)
    | none => p)) ++ b.filter (fun q => (a.lookup q.1).isNone)

/-- `Object.assign({}, old || \x7b\x7d, t)` for a normalized trip `t` merged over an
optional previous map entry (the client global-map upsert). -/
def assignTrip (old : Option Trip) (t : Trip) : Trip :=
  match old with
  | none => t
  | some o =>
      ⟨t.id, overrideField t.status o.status, t.createdAt, t.updatedAt,
        overrideField t.reqId o.reqId, overrideField t.requestId o.requestId,
        assignFields o.extra t.extra⟩

/-- Read `m[k]` on a JS object used as a map. -/
def mapGet (m : List (String × Trip)) (k : String) : Option Trip :=
  m.lookup k

/-- Write `m[k] = v` on a JS object used as a map: existing keys are updated
in place, new keys are appended. -/
def mapSet (m : List (String × Trip)) (k : String) (v : Trip) : List (String × Trip) :=
  if (m.lookup k).isSome then
    m.map (fun p => if p.1 = k then (k, v) else p)
  else
    m ++ [(k, v)]

/-- Number of entries of a bucket list carrying a given id. -/
def countId (l : List Trip) (i : String) : Nat :=
  (l.filter (fun x => x.id == i)).length

namespace Client

/-- The id candidate the client normalizer picks:
`String(t.id || t.reqId || t.requestId || '').trim()`. -/
def pickedId (t : RawTrip) : String :=
  jsTrim ((jsOr t.id (jsOr t.reqId t.requestId)).getD (""))

/-- Client-side `normalizeTrip` from etg-realtime.js.  `none` models the JS
`null` input and the rejected result. -/
def normalizeTrip (t? : Option RawTrip) (now : Nat) : Option Trip :=
  match t? with
  | none => none
  | some t =>
      if pickedId t = "" then none
      else some ⟨pickedId t, t.status, t.createdAt.getD now, t.updatedAt.getD now,
        t.reqId, t.requestId, t.extra⟩

/-- The desk store (`etg-trips` key): one ordered list per status bucket. -/
structure DeskStore where
  pending : List Trip
  pending_manager : List Trip
  approved : List Trip
  rejected : List Trip
  policy_violation : List Trip
  completed : List Trip
deriving DecidableEq

/-- All six bucket lists empty. -/
def emptyDesk : DeskStore :=
  ⟨[], [], [], [], [], []⟩

/-- Read one bucket list of the desk store. -/
def getBucket (s : DeskStore) : Bucket → List Trip
  | Bucket.pending => s.pending
  | Bucket.pending_manager => s.pending_manager
  | Bucket.approved => s.approved
  | Bucket.rejected => s.rejected
  | Bucket.policy_violation => s.policy_violation
  | Bucket.completed => s.completed

/-- Replace one bucket list of the desk store. -/
def setBucket (s : DeskStore) (b : Bucket) (l : List Trip) : DeskStore :=
  match b with
  | Bucket.pending => ⟨l, s.pending_manager, s.approved, s.rejected, s.policy_violation, s.completed⟩
  | Bucket.pending_manager => ⟨s.pending, l, s.approved, s.rejected, s.policy_violation, s.completed⟩
  | Bucket.approved => ⟨s.pending, s.pending_manager, l, s.rejected, s.policy_violation, s.completed⟩
  | Bucket.rejected => ⟨s.pending, s.pending_manager, s.approved, l, s.policy_violation, s.completed⟩
  | Bucket.policy_violation => ⟨s.pending, s.pending_manager, s.approved, s.rejected, l, s.completed⟩
  | Bucket.completed => ⟨s.pending, s.pending_manager, s.approved, s.rejected, s.policy_violation, l⟩

/-- `store[b].push(tr)` (rebuild path: append at the end). -/
def pushBucket (s : DeskStore) (b : Bucket) (t : Trip) : DeskStore :=
  setBucket s b (getBucket s b ++ [t])

/-- `store[b].unshift(tr)` (merge path: insert at the front). -/
def unshiftBucket (s : DeskStore) (b : Bucket) (t : Trip) : DeskStore :=
  setBucket s b (t :: getBucket s b)

/-- `buckets.forEach(bb => store[bb] = store[bb].filter(x => String(x && x.id) !== String(tr.id)))`. -/
def removeIdAll (s : DeskStore) (i : String) : DeskStore :=
  ⟨s.pending.filter (fun x => !(x.id == i)),
    s.pending_manager.filter (fun x => !(x.id == i)),
    s.approved.filter (fun x => !(x.id == i)),
    s.rejected.filter (fun x => !(x.id == i)),
    s.policy_violation.filter (fun x => !(x.id == i)),
    s.completed.filter (fun x => !(x.id == i))⟩

/-- One iteration of the mergeOnly loop in `mirrorTripsToLocal`: drop the id
from every bucket, then unshift the record into its classified bucket. -/
def mergeStep (s : DeskStore) (t : Trip) : DeskStore :=
  unshiftBucket (removeIdAll s t.id) (statusBucket t.status) t

/-- The mergeOnly branch of `mirrorTripsToLocal` over the normalized list. -/
def mergeBuckets (s : DeskStore) (list : List Trip) : DeskStore :=
  list.foldl mergeStep s

/-- `list.forEach(t => g[String(t.id)] = Object.assign(\x7b\x7d, g[String(t.id)] || \x7b\x7d, t))`. -/
def mergeIntoGlobal (g : List (String × Trip)) (list : List Trip) : List (String × Trip) :=
  list.foldl (fun g t => mapSet g t.id (assignTrip (mapGet g t.id) t)) g

/-- The rebuild branch of `mirrorTripsToLocal`: reset every bucket and push
each record of the (merged) global map in map-iteration order. -/
def rebuildBuckets (g : List (String × Trip)) : DeskStore :=
  g.foldl (fun s p => pushBucket s (statusBucket p.2.status) p.2) emptyDesk

/-- `(Array.isArray(trips) ? trips : []).map(normalizeTrip).filter(Boolean)`. -/
def normalizeList (trips : Option (List (Option RawTrip))) (now : Nat) : List Trip :=
  (trips.getD []).filterMap (fun t => normalizeTrip t now)

/-- The client's two localStorage shapes: the canonical map
(`etg-trips-global`) and the desk bucket store (`etg-trips`). -/
structure LocalState where
  global : List (String × Trip)
  desk : DeskStore
deriving DecidableEq

/-- A write performed against localStorage by the mirror. -/
inductive LocalWrite where
  | writeGlobal (m : List (String × Trip))
  | writeDesk (d : DeskStore)
deriving DecidableEq

/-- `mirrorTripsToLocal(trips, { mergeOnly })`: returns the new local state
together with the localStorage writes it performed, in order. -/
def mirrorTripsToLocal (st : LocalState) (trips : Option (List (Option RawTrip)))
    (mergeOnly : Bool) (now : Nat) : LocalState × List LocalWrite :=
  let list := normalizeList trips now
  if list.isEmpty then (st, [])
  else
    let g := mergeIntoGlobal st.global list
    let desk := if mergeOnly then mergeBuckets st.desk list else rebuildBuckets g
    (⟨g, desk⟩, [LocalWrite.writeGlobal g, LocalWrite.writeDesk desk])

/-- The debounce quiet period of `schedulePush` (milliseconds). -/
def PUSH_DELAY : Nat := 400

/-- The localStorage keys that qualify a write for a push. -/
def isMirrorKey (k : String) : Bool :=
  k == "etg-trips-global" || k == "etg-trips" || k == "etg-trips-by-id"

/-- `schedulePush`: bail out while the suppression flag is up, otherwise
cancel any pending timer and arm a fresh one for `now + PUSH_DELAY`. -/
def schedulePush (suppress : Bool) (pending : Option Nat) (now : Nat) : Option Nat :=
  if suppress then pending else some (now + PUSH_DELAY)

/-- The patched `localStorage.setItem`: a write to a mirror key with the
suppression flag down (re)schedules the push timer. -/
def setItemHook (suppress : Bool) (pending : Option Nat) (key : String) (now : Nat) :
    Option Nat :=
  if (!suppress) && isMirrorKey key then schedulePush suppress pending now else pending

/-- A localStorage write as seen by the patched `setItem`: its wall-clock
time, the key written, and the suppression flag at that moment. -/
structure WriteEv where
  time : Nat
  key : String
  suppress : Bool
deriving DecidableEq

/-- Whether a write qualifies for scheduling a push. -/
def qualifies (w : WriteEv) : Bool :=
  (!w.suppress) && isMirrorKey w.key

/-- Process one write in wall-clock order: a pending timer due at or before
the write fires first (one push), then the write runs through the patched
`setItem`. -/
def debounceStep (acc : Option Nat × Nat) (w : WriteEv) : Option Nat × Nat :=
  match acc with
  | (some ft, n) =>
      if ft ≤ w.time then (setItemHook w.suppress none w.key w.time, n + 1)
      else (setItemHook w.suppress (some ft) w.key w.time, n)
  | (none, n) => (setItemHook w.suppress none w.key w.time, n)

/-- Run a time-ordered list of writes from the idle state; yields the still
pending timer and the number of pushes fired so far. -/
def runDebounce (ws : List WriteEv) : Option Nat × Nat :=
  ws.foldl debounceStep (none, 0)

/-- Total number of pushes a write sequence causes once the clock runs out
(a still-pending timer fires exactly once more). -/
def pushCount (ws : List WriteEv) : Nat :=
  (runDebounce ws).2 + (if (runDebounce ws).1.isSome then 1 else 0)

/-- No entry of any bucket list carries the given id. -/
def idAbsent (d : DeskStore) (i : String) : Prop :=
  ∀ b : Bucket, ∀ x ∈ getBucket d b, x.id ≠ i

end Client

namespace Server

/-- `String(t?.id || '').trim()` as computed by the server routes and by the
server normalizer. -/
def entryId (t? : Option RawTrip) : String :=
  jsTrim ((t?.bind RawTrip.id).getD (""))

/-- Whether a bulk entry's id resolves to a non-empty trimmed string. -/
def entryValid (t? : Option RawTrip) : Bool :=
  !(entryId t? == "")

/-- Server-side `normalizeTrip` from server.js: shallow-merge the previous
stored record (if any) under the input, force the trimmed id, keep the first
`createdAt`, and stamp `updatedAt` with the current clock. -/
def normalizeTrip (trips : List (String × Trip)) (t? : Option RawTrip) (now : Nat) :
    Option Trip :=
  if entryId t? = "" then none
  else
    let t := t?.getD emptyRaw
    match mapGet trips (entryId t?) with
    | some prev =>
        some ⟨entryId t?, overrideField t.status prev.status, prev.createdAt, now,
          overrideField t.reqId prev.reqId, overrideField t.requestId prev.requestId,
          assignFields prev.extra t.extra⟩
    | none =>
        some ⟨entryId t?, t.status, t.createdAt.getD now, now, t.reqId, t.requestId, t.extra⟩

/-- The server's authoritative state (the `users` map is out of scope here). -/
structure ServerState where
  trips : List (String × Trip)
deriving DecidableEq

/-- Payload of a Socket.IO event: a single record or a batch. -/
inductive EmitPayload where
  | one (t : Trip)
  | many (ts : List Trip)
deriving DecidableEq

/-- An externally visible side effect of a mutation handler, in program
order: a synchronous `writeData` of the full map, or an `io.emit`. -/
inductive Effect where
  | diskWrite (trips : List (String × Trip))
  | emit (ev : String) (p : EmitPayload)
deriving DecidableEq

/-- The JSON response of a trip route. -/
inductive Response where
  | ok (t : Trip)
  | bulkOk (upserted : Nat)
  | badRequest (msg : String)
deriving DecidableEq

/-- `POST /api/trips`: `genId` models `crypto.randomUUID()`, used when the
body carries no truthy id. -/
def postTrip (st : ServerState) (body : Option RawTrip) (genId : String) (now : Nat) :
    ServerState × List Effect × Response :=
  let trip := body.getD emptyRaw
  let id := jsTrim ((jsOr trip.id (some genId)).getD (""))
  match normalizeTrip st.trips (some { trip with id := some id }) now with
  | none => (st, [], Response.badRequest ("Trip id is required."))
  | some merged =>
      let existed := (mapGet st.trips id).isSome
      let trips2 := mapSet st.trips id merged
      (⟨trips2⟩,
        [Effect.diskWrite trips2,
          Effect.emit (if existed then "trip:updated" else "trip:created") (EmitPayload.one merged)],
        Response.ok merged)

/-- `PATCH /api/trips/:id`. -/
def patchTrip (st : ServerState) (paramId : String) (body : Option RawTrip) (now : Nat) :
    ServerState × List Effect × Response :=
  let id := jsTrim paramId
  if id = "" then (st, [], Response.badRequest ("Trip id is required."))
  else
    let patch := body.getD emptyRaw
    match normalizeTrip st.trips (some { patch with id := some id }) now with
    | none => (st, [], Response.badRequest ("Trip id is required."))
    | some merged =>
        let trips2 := mapSet st.trips id merged
        (⟨trips2⟩,
          [Effect.diskWrite trips2, Effect.emit ("trip:updated") (EmitPayload.one merged)],
          Response.ok merged)

/-- One iteration of the `POST /api/trips/bulk` loop over
`(map, upserted, changed)`: skip entries without a resolvable id, otherwise
normalize against the evolving map and store the result. -/
def bulkStep (now : Nat) (acc : List (String × Trip) × Nat × List Trip) (t? : Option RawTrip) :
    List (String × Trip) × Nat × List Trip :=
  if entryId t? = "" then acc
  else
    match normalizeTrip acc.1 t? now with
    | none => acc
    | some merged => (mapSet acc.1 (entryId t?) merged, acc.2.1 + 1, acc.2.2 ++ [merged])

/-- `POST /api/trips/bulk`: `none`/empty bodies return `upserted: 0` without
touching disk or emitting; otherwise one `writeData` then one `trip:bulk`. -/
def bulkUpsert (st : ServerState) (body : Option (List (Option RawTrip))) (now : Nat) :
    ServerState × List Effect × Response :=
  let trips := body.getD []
  if trips.isEmpty then (st, [], Response.bulkOk 0)
  else
    let r := trips.foldl (bulkStep now) (st.trips, 0, [])
    (⟨r.1⟩,
      [Effect.diskWrite r.1, Effect.emit ("trip:bulk") (EmitPayload.many r.2.2)],
      Response.bulkOk r.2.1)

end Server

/-! ## Claim theorems -/

/-- C1, counterexample: the client `normalizeTrip` does not refresh
`updatedAt` on a record that already carries one — at clock 10 an input with
`updatedAt = 5` normalizes to `updatedAt = 5`, not to the current time, so
`updatedAt` does not advance across successive client normalizations. -/
theorem claim_C1_counterexample :
    Client.normalizeTrip (some ⟨some ("a"), none, none, none, none, some 5, []⟩) 10
      = some ⟨"a", none, 10, 5, none, none, []⟩ ∧ (5 : Nat) ≠ 10 :=
  ⟨by decide, by decide⟩

/-- C1, amended: the server `normalizeTrip` stamps `updatedAt := now` on every
accepted pass (so server-side `updatedAt` strictly advances whenever the clock
does); the client `normalizeTrip` keeps an existing `updatedAt` and stamps the
current time only when the field is absent. -/
theorem claim_C1_updatedAt :
    (∀ (m : List (String × Trip)) (t? : Option RawTrip) (now : Nat) (tr : Trip),
        Server.normalizeTrip m t? now = some tr → tr.updatedAt = now) ∧
    (∀ (t : RawTrip) (now : Nat) (tc : Trip),
        Client.normalizeTrip (some t) now = some tc →
        tc.updatedAt = t.updatedAt.getD now) := by
  constructor
  · intro m t? now tr h
    simp only [Server.normalizeTrip] at h
    split at h
    · exact absurd h (by simp)
    · split at h <;> (cases h; rfl)
  · intro t now tc h
    simp only [Client.normalizeTrip] at h
    split at h
    · exact absurd h (by simp)
    · cases h; rfl

/-- Witness for C1 at concrete inputs. -/
theorem claim_C1_updatedAt_witness :
    (⟨"a", none, 7, 7, none, none, []⟩ : Trip).updatedAt = 7 ∧
    (⟨"b", none, 5, 3, none, none, []⟩ : Trip).updatedAt = (some 3).getD 5 :=
  ⟨claim_C1_updatedAt.1 [] (some ⟨some ("a"), none, none, none, none, none, []⟩) 7 _ (by decide),
    claim_C1_updatedAt.2 ⟨some ("b"), none, none, none, none, some 3, []⟩ 5 _ (by decide)⟩

/-- C2, counterexample: a status containing both `manager` and `rejected` is
not always classified `rejected` — the completed-or-final rule is tested
first, so `"Rejected by Manager - Final"` lands in `completed`. -/
theorem claim_C2_counterexample :
    statusBucket (some ("Rejected by Manager - Final")) = Bucket.completed ∧
    Bucket.completed ≠ Bucket.rejected :=
  ⟨by decide, by decide⟩

/-- C2, amended: `statusBucket` is a total function of the status string; a
status whose lower-casing contains `rejected` and none of the higher-priority
keywords `completed`, `final`, `approved` classifies as `rejected` regardless
of also containing `policy` or `manager`; in particular
`"Pending Manager Approval - Rejected"` classifies as `rejected`. -/
theorem claim_C2_classifier :
    (∀ s : String,
        jsIncludes (jsToLower s) ("rejected") = true →
        jsIncludes (jsToLower s) ("completed") = false →
        jsIncludes (jsToLower s) ("final") = false →
        jsIncludes (jsToLower s) ("approved") = false →
        statusBucket (some s) = Bucket.rejected) ∧
    statusBucket (some ("Pending Manager Approval - Rejected")) = Bucket.rejected := by
  constructor
  · intro s h1 h2 h3 h4
    simp [statusBucket, h1, h2, h3, h4]
  · decide

/-- Witness for C2's guarded rule at the spec's example status. -/
theorem claim_C2_classifier_witness :
    statusBucket (some ("Pending Manager Approval - Rejected")) = Bucket.rejected :=
  claim_C2_classifier.1 ("Pending Manager Approval - Rejected")
    (by decide) (by decide) (by decide) (by decide)

/-- C5, counterexample: the client normalizer accepts a record whose `id` is
missing, falling back to `reqId` — so "rejects iff id is missing or blank" is
false on the client side. -/
theorem claim_C5_counterexample :
    (⟨none, some ("x"), none, none, none, none, []⟩ : RawTrip).id = none ∧
    Client.normalizeTrip (some ⟨none, some ("x"), none, none, none, none, []⟩) 0
      = some ⟨"x", none, 0, 0, some ("x"), none, []⟩ :=
  ⟨rfl, by decide⟩

/-- C5, amended: the server normalizer rejects exactly when the input's `id`
is missing or blank after trimming (a `null` body is also rejected); the
client normalizer first falls back through `reqId` and `requestId` via the JS
truthiness chain and rejects exactly when that chain's pick trims to blank. -/
theorem claim_C5_reject_iff :
    (∀ (m : List (String × Trip)) (t : RawTrip) (now : Nat),
        Server.normalizeTrip m (some t) now = none ↔ jsTrim (t.id.getD ("")) = "") ∧
    (∀ (m : List (String × Trip)) (now : Nat), Server.normalizeTrip m none now = none) ∧
    (∀ (t : RawTrip) (now : Nat),
        Client.normalizeTrip (some t) now = none ↔
        jsTrim ((jsOr t.id (jsOr t.reqId t.requestId)).getD ("")) = "") := by
  refine ⟨?_, ?_, ?_⟩
  · intro m t now
    have he : Server.entryId (some t) = jsTrim (t.id.getD ("")) := rfl
    by_cases h : jsTrim (t.id.getD ("")) = ""
    · simp [Server.normalizeTrip, he, h]
    · simp only [Server.normalizeTrip, he, if_neg h]
      constructor
      · intro hcontra
        split at hcontra <;> simp at hcontra
      · intro hcontra
        exact absurd hcontra h
  · intro m now
    simp [Server.normalizeTrip, Server.entryId, jsTrim]
  · intro t now
    have he : Client.pickedId t = jsTrim ((jsOr t.id (jsOr t.reqId t.requestId)).getD ("")) := rfl
    by_cases h : jsTrim ((jsOr t.id (jsOr t.reqId t.requestId)).getD ("")) = ""
    · simp [Client.normalizeTrip, he, h]
    · simp [Client.normalizeTrip, he, h]

/-- Witness for C5 at concrete inputs: a blank server id is rejected, and the
client accepts when the truthiness chain picks a non-blank `requestId`. -/
theorem claim_C5_reject_iff_witness :
    Server.normalizeTrip [] (some ⟨some ("  "), none, none, none, none, none, []⟩) 0 = none ∧
    ¬ (Client.normalizeTrip (some ⟨none, none, some ("q7"), none, none, none, []⟩) 2 = none) :=
  ⟨(claim_C5_reject_iff.1 [] ⟨some ("  "), none, none, none, none, none, []⟩ 0).mpr (by decide),
    fun hc => by
      have := (claim_C5_reject_iff.2.2 ⟨none, none, some ("q7"), none, none, none, []⟩ 2).mp hc
      exact absurd this (by decide)⟩

/-- C6: every mutation route attempts the synchronous `writeData` of the full
post-mutation map strictly before emitting its realtime event — each handler's
effect trace is either empty (validation failure or bulk no-op) or exactly a
disk write of the final map followed by one emit. -/
theorem claim_C6_persist_before_emit (st : Server.ServerState) (body : Option RawTrip)
    (genId paramId : String) (bulkBody : Option (List (Option RawTrip))) (now : Nat) :
    ((Server.postTrip st body genId now).2.1 = [] ∨
      ∃ ev p, (Server.postTrip st body genId now).2.1
        = [Server.Effect.diskWrite (Server.postTrip st body genId now).1.trips,
            Server.Effect.emit ev p]) ∧
    ((Server.patchTrip st paramId body now).2.1 = [] ∨
      ∃ ev p, (Server.patchTrip st paramId body now).2.1
        = [Server.Effect.diskWrite (Server.patchTrip st paramId body now).1.trips,
            Server.Effect.emit ev p]) ∧
    ((Server.bulkUpsert st bulkBody now).2.1 = [] ∨
      ∃ ev p, (Server.bulkUpsert st bulkBody now).2.1
        = [Server.Effect.diskWrite (Server.bulkUpsert st bulkBody now).1.trips,
            Server.Effect.emit ev p]) := by
  refine ⟨?_, ?_, ?_⟩
  · simp only [Server.postTrip]
    split
    · exact Or.inl rfl
    · exact Or.inr ⟨_, _, rfl⟩
  · simp only [Server.patchTrip]
    split
    · exact Or.inl rfl
    · split
      · exact Or.inl rfl
      · exact Or.inr ⟨_, _, rfl⟩
  · simp only [Server.bulkUpsert]
    split
    · exact Or.inl rfl
    · exact Or.inr ⟨_, _, rfl⟩

/-- C7, counterexample: a bulk request whose `trips` array is empty returns
`upserted: 0` without emitting any `trip:bulk` event (the route returns before
`writeData` and `io.emit`), so "exactly one event per bulk request" fails. -/
theorem claim_C7_counterexample :
    (Server.bulkUpsert ⟨[]⟩ (some []) 5).2.1 = [] ∧
    (Server.bulkUpsert ⟨[]⟩ (some []) 5).2.2 = Server.Response.bulkOk 0 :=
  ⟨rfl, rfl⟩

/-- C10: when every entry of the incoming list is rejected by the normalizer
(including the empty list and a non-array body), `mirrorTripsToLocal` returns
before touching storage in either mode: the local state is unchanged and no
localStorage write happens, so a zero-record initial sync keeps stale buckets. -/
theorem claim_C10_empty_frame (st : Client.LocalState)
    (trips : Option (List (Option RawTrip))) (mergeOnly : Bool) (now : Nat)
    (h : ∀ t ∈ trips.getD [], Client.normalizeTrip t now = none) :
    Client.mirrorTripsToLocal st trips mergeOnly now = (st, []) := by
  have hl : Client.normalizeList trips now = [] := by
    simp only [Client.normalizeList]
    exact List.filterMap_eq_nil_iff.mpr h
  simp [Client.mirrorTripsToLocal, hl]

/-- Witness for C10: a rebuild-mode sync that pulls only invalid records
leaves a stale desk store and canonical map untouched and writes nothing. -/
theorem claim_C10_empty_frame_witness :
    Client.mirrorTripsToLocal
        ⟨[(("z"), ⟨"z", none, 1, 1, none, none, []⟩)],
          ⟨[⟨"z", none, 1, 1, none, none, []⟩], [], [], [], [], []⟩⟩
        (some [some ⟨some ("   "), none, none, some ("Pending"), none, none, []⟩, none]) false 9
      = (⟨[(("z"), ⟨"z", none, 1, 1, none, none, []⟩)],
          ⟨[⟨"z", none, 1, 1, none, none, []⟩], [], [], [], [], []⟩⟩, []) :=
  claim_C10_empty_frame _ _ false 9 (by decide)

/-- Reading after `setBucket` returns the new list on the written bucket and
the old list elsewhere. -/
theorem Client.getBucket_setBucket (d : Client.DeskStore) (b b' : Bucket) (l : List Trip) :
    Client.getBucket (Client.setBucket d b l) b' = if b = b' then l else Client.getBucket d b' := by
  cases b <;> cases b' <;> simp [Client.getBucket, Client.setBucket]

/-- Reading after `unshiftBucket`. -/
theorem Client.getBucket_unshiftBucket (d : Client.DeskStore) (b b' : Bucket) (t : Trip) :
    Client.getBucket (Client.unshiftBucket d b t) b'
      = if b = b' then t :: Client.getBucket d b' else Client.getBucket d b' := by
  cases b <;> cases b' <;> simp [Client.getBucket, Client.setBucket, Client.unshiftBucket]

/-- Reading after `pushBucket`. -/
theorem Client.getBucket_pushBucket (d : Client.DeskStore) (b b' : Bucket) (t : Trip) :
    Client.getBucket (Client.pushBucket d b t) b'
      = if b = b' then Client.getBucket d b' ++ [t] else Client.getBucket d b' := by
  cases b <;> cases b' <;> simp [Client.getBucket, Client.setBucket, Client.pushBucket]

/-- Reading after `removeIdAll` filters the id out of every bucket. -/
theorem Client.getBucket_removeIdAll (d : Client.DeskStore) (i : String) (b : Bucket) :
    Client.getBucket (Client.removeIdAll d i) b
      = (Client.getBucket d b).filter (fun x => !(x.id == i)) := by
  cases b <;> rfl

/-- Every bucket of the empty desk store is empty. -/
theorem Client.getBucket_emptyDesk (b : Bucket) : Client.getBucket Client.emptyDesk b = [] := by
  cases b <;> rfl

/-- A list from which an id has been filtered out contains no entry with it. -/
theorem countId_filterOut (l : List Trip) (i : String) :
    countId (l.filter (fun x => !(x.id == i))) i = 0 := by
  induction l with
  | nil => rfl
  | cons a l ih =>
      by_cases h : (a.id == i) = true
      · simp only [countId, List.filter, h, Bool.not_true] at ih ⊢
        exact ih
      · simp only [Bool.not_eq_true] at h
        simp only [countId, List.filter, h, Bool.not_false] at ih ⊢
        exact ih

/-- Prepending a record increments its own id count. -/
theorem countId_cons_self (l : List Trip) (t : Trip) :
    countId (t :: l) t.id = countId l t.id + 1 := by
  simp [countId, List.filter]

/-- C3: after a merge-mode `mirrorTripsToLocal` of one accepted record, its id
sits in exactly the bucket the classifier picks for its status and in none of
the other five bucket lists, whatever the prior desk-store state. -/
theorem claim_C3_merge_exactly_one (st : Client.LocalState) (r : RawTrip) (now : Nat)
    (tr : Trip) (h : Client.normalizeTrip (some r) now = some tr) :
    countId (Client.getBucket ((Client.mirrorTripsToLocal st (some [some r]) true now).1.desk)
        (statusBucket r.status)) tr.id = 1 ∧
    (∀ b : Bucket, b ≠ statusBucket r.status →
      countId (Client.getBucket ((Client.mirrorTripsToLocal st (some [some r]) true now).1.desk)
          b) tr.id = 0) := by
  have hst : tr.status = r.status := by
    simp only [Client.normalizeTrip] at h
    split at h
    · exact absurd h (by simp)
    · cases h; rfl
  have hlist : Client.normalizeList (some [some r]) now = [tr] := by
    simp [Client.normalizeList, h]
  have hdesk : (Client.mirrorTripsToLocal st (some [some r]) true now).1.desk
      = Client.mergeStep st.desk tr := by
    simp [Client.mirrorTripsToLocal, hlist, Client.mergeBuckets]
  rw [hdesk, ← hst]
  unfold Client.mergeStep
  constructor
  · rw [Client.getBucket_unshiftBucket, if_pos rfl, Client.getBucket_removeIdAll,
      countId_cons_self, countId_filterOut]
  · intro b hb
    rw [Client.getBucket_unshiftBucket, if_neg (fun he => hb he.symm),
      Client.getBucket_removeIdAll, countId_filterOut]

/-- Witness for C3: one approved record is upserted into a stale desk store
that already lists the id under `pending`; the id ends up once in `approved`
and zero times in `pending`. -/
theorem claim_C3_merge_exactly_one_witness :
    countId (Client.getBucket ((Client.mirrorTripsToLocal
        ⟨[], ⟨[⟨"a", none, 1, 1, none, none, []⟩], [], [], [], [], []⟩⟩
        (some [some ⟨some ("a"), none, none, some ("Approved"), none, none, []⟩]) true 4).1.desk)
        (statusBucket (some ("Approved")))) ("a") = 1 ∧
    countId (Client.getBucket ((Client.mirrorTripsToLocal
        ⟨[], ⟨[⟨"a", none, 1, 1, none, none, []⟩], [], [], [], [], []⟩⟩
        (some [some ⟨some ("a"), none, none, some ("Approved"), none, none, []⟩]) true 4).1.desk)
        Bucket.pending) ("a") = 0 :=
  ⟨(claim_C3_merge_exactly_one ⟨[], ⟨[⟨"a", none, 1, 1, none, none, []⟩], [], [], [], [], []⟩⟩
      ⟨some ("a"), none, none, some ("Approved"), none, none, []⟩ 4
      ⟨"a", some ("Approved"), 4, 4, none, none, []⟩ (by decide)).1,
    (claim_C3_merge_exactly_one ⟨[], ⟨[⟨"a", none, 1, 1, none, none, []⟩], [], [], [], [], []⟩⟩
      ⟨some ("a"), none, none, some ("Approved"), none, none, []⟩ 4
      ⟨"a", some ("Approved"), 4, 4, none, none, []⟩ (by decide)).2 Bucket.pending (by decide)⟩

/-- A qualifying write with no due timer just (re)arms the timer for
`time + PUSH_DELAY` without firing a push. -/
theorem Client.debounceStep_arm (w : Client.WriteEv) (p : Option Nat) (n : Nat)
    (hw : Client.qualifies w = true) (hnf : ∀ ft, p = some ft → w.time < ft) :
    Client.debounceStep (p, n) w = (some (w.time + Client.PUSH_DELAY), n) := by
  have hs : w.suppress = false := by
    cases hsw : w.suppress
    · rfl
    · rw [Client.qualifies, hsw] at hw
      simp at hw
  have hk : Client.isMirrorKey w.key = true := by
    rw [Client.qualifies, hs] at hw
    simpa using hw
  cases p with
  | none =>
      simp [Client.debounceStep, Client.setItemHook, Client.schedulePush, hk, hs]
  | some ft =>
      have hlt : w.time < ft := hnf ft rfl
      simp [Client.debounceStep, Client.setItemHook, Client.schedulePush, hk, hs,
        Nat.not_le.mpr hlt]

/-- A qualifying write arriving once the pending timer is due lets it fire
(one push) and then re-arms the timer. -/
theorem Client.debounceStep_fire (w : Client.WriteEv) (ft n : Nat)
    (hw : Client.qualifies w = true) (hdue : ft ≤ w.time) :
    Client.debounceStep (some ft, n) w = (some (w.time + Client.PUSH_DELAY), n + 1) := by
  have hs : w.suppress = false := by
    cases hsw : w.suppress
    · rfl
    · rw [Client.qualifies, hsw] at hw
      simp at hw
  have hk : Client.isMirrorKey w.key = true := by
    rw [Client.qualifies, hs] at hw
    simpa using hw
  simp [Client.debounceStep, Client.setItemHook, Client.schedulePush, hk, hs, hdue]

/-- Folding a burst (all qualifying, each write inside the previous write's
quiet period, no timer due at the head) never fires and leaves the timer armed
by the last write. -/
theorem Client.foldl_debounce_burst (ws : List Client.WriteEv) :
    ∀ (w : Client.WriteEv) (p : Option Nat) (n : Nat),
      (∀ x ∈ w :: ws, Client.qualifies x = true) →
      List.Chain' (fun a b => b.time < a.time + Client.PUSH_DELAY) (w :: ws) →
      (∀ ft, p = some ft → w.time < ft) →
      (w :: ws).foldl Client.debounceStep (p, n)
        = (some (((w :: ws).getLast (List.cons_ne_nil w ws)).time + Client.PUSH_DELAY), n) := by
  induction ws with
  | nil =>
      intro w p n hq _ hnf
      have := Client.debounceStep_arm w p n (hq w (by simp)) hnf
      simp [List.foldl_cons, List.foldl_nil, this]
  | cons w2 ws ih =>
      intro w p n hq hch hnf
      have hstep := Client.debounceStep_arm w p n (hq w (by simp)) hnf
      have hch2 := (List.chain'_cons.mp hch)
      have := ih w2 (some (w.time + Client.PUSH_DELAY)) n
        (fun x hx => hq x (List.mem_cons_of_mem w hx)) hch2.2
        (fun ft hft => by cases hft; exact hch2.1)
      rw [List.foldl_cons, hstep, this]
      rfl

/-- Folding spaced writes (all qualifying, each write at or past the previous
timer's fire time, the head already due) fires once per write, leaving a timer
armed by the last write. -/
theorem Client.foldl_debounce_spaced (ws : List Client.WriteEv) :
    ∀ (w : Client.WriteEv) (ft n : Nat),
      (∀ x ∈ w :: ws, Client.qualifies x = true) →
      List.Chain' (fun a b => a.time + Client.PUSH_DELAY ≤ b.time) (w :: ws) →
      ft ≤ w.time →
      (w :: ws).foldl Client.debounceStep (some ft, n)
        = (some (((w :: ws).getLast (List.cons_ne_nil w ws)).time + Client.PUSH_DELAY),
            n + 1 + ws.length) := by
  induction ws with
  | nil =>
      intro w ft n hq _ hdue
      have := Client.debounceStep_fire w ft n (hq w (by simp)) hdue
      simp [List.foldl_cons, List.foldl_nil, this]
  | cons w2 ws ih =>
      intro w ft n hq hch hdue
      have hstep := Client.debounceStep_fire w ft n (hq w (by simp)) hdue
      have hch2 := (List.chain'_cons.mp hch)
      have := ih w2 (w.time + Client.PUSH_DELAY) (n + 1)
        (fun x hx => hq x (List.mem_cons_of_mem w hx)) hch2.2 hch2.1
      rw [List.foldl_cons, hstep, this]
      congr 1
      simp only [List.length_cons]
      omega

/-- C9: with the suppression flag down, a burst of qualifying mirror-key
writes each falling inside the previous write's quiet period produces exactly
one push, its timer armed by the last write of the burst; qualifying writes
each spaced at least a full quiet period apart produce one push per write. -/
theorem claim_C9_debounce :
    (∀ (w : Client.WriteEv) (ws : List Client.WriteEv),
        (∀ x ∈ w :: ws, Client.qualifies x = true) →
        List.Chain' (fun a b => b.time < a.time + Client.PUSH_DELAY) (w :: ws) →
        Client.pushCount (w :: ws) = 1 ∧
        (Client.runDebounce (w :: ws)).1
          = some (((w :: ws).getLast (List.cons_ne_nil w ws)).time + Client.PUSH_DELAY)) ∧
    (∀ ws : List Client.WriteEv,
        (∀ x ∈ ws, Client.qualifies x = true) →
        List.Chain' (fun a b => a.time + Client.PUSH_DELAY ≤ b.time) ws →
        Client.pushCount ws = ws.length) := by
  constructor
  · intro w ws hq hch
    have hrun : Client.runDebounce (w :: ws)
        = (some (((w :: ws).getLast (List.cons_ne_nil w ws)).time + Client.PUSH_DELAY), 0) :=
      Client.foldl_debounce_burst ws w none 0 hq hch (fun ft hft => by cases hft)
    constructor
    · simp [Client.pushCount, hrun]
    · simp [hrun]
  · intro ws hq hch
    cases ws with
    | nil => rfl
    | cons w ws =>
        have hstep := Client.debounceStep_arm w none 0 (hq w (by simp))
          (fun ft hft => by cases hft)
        cases ws with
        | nil =>
            simp [Client.pushCount, Client.runDebounce, List.foldl_cons, List.foldl_nil, hstep]
        | cons w2 ws2 =>
            have hch2 := (List.chain'_cons.mp hch)
            have hrest := Client.foldl_debounce_spaced ws2 w2 (w.time + Client.PUSH_DELAY) 0
              (fun x hx => hq x (List.mem_cons_of_mem w hx)) hch2.2 hch2.1
            have hrun : Client.runDebounce (w :: w2 :: ws2)
                = (some (((w2 :: ws2).getLast (List.cons_ne_nil w2 ws2)).time
                    + Client.PUSH_DELAY), 0 + 1 + ws2.length) := by
              simp only [Client.runDebounce, List.foldl_cons, hstep]
              exact hrest
            simp [Client.pushCount, hrun]
            ring_nf

/-- Witness for C9: two writes 100 ms apart coalesce into one push with the
timer armed at 500; three writes 500 ms apart produce three pushes. -/
theorem claim_C9_debounce_witness :
    Client.pushCount [⟨0, "etg-trips", false⟩, ⟨100, "etg-trips-global", false⟩] = 1 ∧
    (Client.runDebounce [⟨0, "etg-trips", false⟩, ⟨100, "etg-trips-global", false⟩]).1
      = some 500 ∧
    Client.pushCount [⟨0, "etg-trips", false⟩, ⟨500, "etg-trips", false⟩,
      ⟨1000, "etg-trips", false⟩] = 3 :=
  ⟨(claim_C9_debounce.1 ⟨0, "etg-trips", false⟩ [⟨100, "etg-trips-global", false⟩]
      (by decide) (by norm_num [List.chain'_cons, Client.PUSH_DELAY])).1,
    (claim_C9_debounce.1 ⟨0, "etg-trips", false⟩ [⟨100, "etg-trips-global", false⟩]
      (by decide) (by norm_num [List.chain'_cons, Client.PUSH_DELAY])).2,
    claim_C9_debounce.2 [⟨0, "etg-trips", false⟩, ⟨500, "etg-trips", false⟩,
      ⟨1000, "etg-trips", false⟩] (by decide)
      (by norm_num [List.chain'_cons, Client.PUSH_DELAY])⟩

/-- C8, counterexample: a fresh `POST /api/trips` whose body supplies a
`createdAt` honors it, so the response of a fresh create need not satisfy
`createdAt == updatedAt` (here `createdAt = 5` but `updatedAt = 10`). -/
theorem claim_C8_counterexample :
    (Server.postTrip ⟨[]⟩ (some ⟨some ("t1"), none, none, none, some 5, none, []⟩)
        ("g") 10).2.2
      = Server.Response.ok ⟨"t1", none, 5, 10, none, none, []⟩ ∧ (5 : Nat) ≠ 10 :=
  ⟨by decide, by decide⟩

/-- C8, amended: server-side `createdAt` is set at a record's first
normalization (to the input's `createdAt` when supplied, else to `now`) and is
never changed by a later normalization of the same id; a fresh `POST` whose
body does not supply `createdAt` responds with `createdAt = updatedAt = now`;
a `PATCH` of an existing record keeps its `createdAt` and stamps `updatedAt`
with the (later) clock. -/
theorem claim_C8_createdAt :
    (∀ (m : List (String × Trip)) (t? : Option RawTrip) (now : Nat) (tr prev : Trip),
        Server.normalizeTrip m t? now = some tr →
        mapGet m tr.id = some prev →
        tr.createdAt = prev.createdAt) ∧
    (∀ (st : Server.ServerState) (body : RawTrip) (genId : String) (now : Nat)
        (st2 : Server.ServerState) (effs : List Server.Effect) (tr : Trip),
        Server.postTrip st (some body) genId now = (st2, effs, Server.Response.ok tr) →
        mapGet st.trips tr.id = none →
        body.createdAt = none →
        tr.createdAt = tr.updatedAt ∧ tr.updatedAt = now) ∧
    (∀ (st : Server.ServerState) (pid : String) (body : RawTrip) (now2 : Nat)
        (st2 : Server.ServerState) (effs : List Server.Effect) (tr prev : Trip),
        Server.patchTrip st pid (some body) now2 = (st2, effs, Server.Response.ok tr) →
        mapGet st.trips tr.id = some prev →
        tr.createdAt = prev.createdAt ∧ tr.updatedAt = now2) := by
  refine ⟨?_, ?_, ?_⟩
  · intro m t? now tr prev h hprev
    simp only [Server.normalizeTrip] at h
    split at h
    · exact absurd h (by simp)
    · split at h
      · next prev2 hm =>
          cases h
          simp only at hprev
          rw [hm] at hprev
          cases hprev
          rfl
      · next hm =>
          cases h
          simp only at hprev
          rw [hm] at hprev
          cases hprev
  · intro st body genId now st2 effs tr heq hfresh hcA
    simp only [Server.postTrip] at heq
    split at heq
    · simp at heq
    · next merged hnorm =>
        have htr : merged = tr := by
          have := congrArg (fun x => x.2.2) heq
          simpa using this
        subst htr
        simp only [Server.normalizeTrip] at hnorm
        split at hnorm
        · exact absurd hnorm (by simp)
        · split at hnorm
          · next prev2 hm =>
              cases hnorm
              simp only at hfresh
              rw [hm] at hfresh
              cases hfresh
          · next hm =>
              cases hnorm
              simp only [Option.getD_some] at hcA ⊢
              simp [hcA]
  · intro st pid body now2 st2 effs tr prev heq hprev
    simp only [Server.patchTrip] at heq
    split at heq
    · simp at heq
    · split at heq
      · simp at heq
      · next merged hnorm =>
          have htr : merged = tr := by
            have := congrArg (fun x => x.2.2) heq
            simpa using this
          subst htr
          simp only [Server.normalizeTrip] at hnorm
          split at hnorm
          · exact absurd hnorm (by simp)
          · split at hnorm
            · next prev2 hm =>
                cases hnorm
                simp only at hprev
                rw [hm] at hprev
                cases hprev
                exact ⟨rfl, rfl⟩
            · next hm =>
                cases hnorm
                simp only at hprev
                rw [hm] at hprev
                cases hprev

/-- Witness for C8: the first normalization fixes `createdAt`; a fresh create
at clock 3 returns `createdAt = updatedAt = 3`; a patch at clock 7 keeps
`createdAt = 3` and stamps `updatedAt = 7`. -/
theorem claim_C8_createdAt_witness :
    (⟨"a", some ("Approved"), 5, 9, none, none, []⟩ : Trip).createdAt
        = (⟨"a", none, 5, 2, none, none, []⟩ : Trip).createdAt ∧
    ((⟨"t1", some ("Pending"), 3, 3, none, none, []⟩ : Trip).createdAt
        = (⟨"t1", some ("Pending"), 3, 3, none, none, []⟩ : Trip).updatedAt ∧
      (⟨"t1", some ("Pending"), 3, 3, none, none, []⟩ : Trip).updatedAt = 3) ∧
    ((⟨"t1", some ("Approved"), 3, 7, none, none, []⟩ : Trip).createdAt
        = (⟨"t1", some ("Pending"), 3, 3, none, none, []⟩ : Trip).createdAt ∧
      (⟨"t1", some ("Approved"), 3, 7, none, none, []⟩ : Trip).updatedAt = 7) :=
  ⟨claim_C8_createdAt.1 [(("a"), ⟨"a", none, 5, 2, none, none, []⟩)]
      (some ⟨some ("a"), none, none, some ("Approved"), none, none, []⟩) 9 _ _
      (by decide) (by decide),
    claim_C8_createdAt.2.1 ⟨[]⟩ ⟨some ("t1"), none, none, some ("Pending"), none, none, []⟩
      ("g") 3 ⟨[(("t1"), ⟨"t1", some ("Pending"), 3, 3, none, none, []⟩)]⟩
      [Server.Effect.diskWrite [(("t1"), ⟨"t1", some ("Pending"), 3, 3, none, none, []⟩)],
        Server.Effect.emit ("trip:created")
          (Server.EmitPayload.one ⟨"t1", some ("Pending"), 3, 3, none, none, []⟩)]
      ⟨"t1", some ("Pending"), 3, 3, none, none, []⟩ (by decide) (by decide) rfl,
    claim_C8_createdAt.2.2 ⟨[(("t1"), ⟨"t1", some ("Pending"), 3, 3, none, none, []⟩)]⟩
      ("t1") ⟨none, none, none, some ("Approved"), none, none, []⟩ 7
      ⟨[(("t1"), ⟨"t1", some ("Approved"), 3, 7, none, none, []⟩)]⟩
      [Server.Effect.diskWrite [(("t1"), ⟨"t1", some ("Approved"), 3, 7, none, none, []⟩)],
        Server.Effect.emit ("trip:updated")
          (Server.EmitPayload.one ⟨"t1", some ("Approved"), 3, 7, none, none, []⟩)]
      ⟨"t1", some ("Approved"), 3, 7, none, none, []⟩ ⟨"t1", some ("Pending"), 3, 3, none, none, []⟩
      (by decide) (by decide)⟩

/-- A bulk entry with a resolvable id always normalizes, and the result
carries exactly that id. -/
theorem Server.normalizeTrip_of_validId (m : List (String × Trip)) (t? : Option RawTrip)
    (now : Nat) (h : Server.entryId t? ≠ "") :
    ∃ tr, Server.normalizeTrip m t? now = some tr ∧ tr.id = Server.entryId t? := by
  simp only [Server.normalizeTrip, if_neg h]
  split
  · exact ⟨_, rfl, rfl⟩
  · exact ⟨_, rfl, rfl⟩

/-- The bulk loop counts exactly the entries with a resolvable id and
accumulates one normalized record per such entry, in request order. -/
theorem Server.bulk_fold_spec (now : Nat) (l : List (Option RawTrip)) :
    ∀ (m : List (String × Trip)) (n : Nat) (ch : List Trip),
      (l.foldl (Server.bulkStep now) (m, n, ch)).2.1
        = n + (l.filter Server.entryValid).length ∧
      (l.foldl (Server.bulkStep now) (m, n, ch)).2.2.map Trip.id
        = ch.map Trip.id ++ (l.filter Server.entryValid).map Server.entryId := by
  induction l with
  | nil =>
      intro m n ch
      simp
  | cons t? l ih =>
      intro m n ch
      by_cases h : Server.entryId t? = ""
      · have hv : Server.entryValid t? = false := by simp [Server.entryValid, h]
        have hstep : Server.bulkStep now (m, n, ch) t? = (m, n, ch) := by
          simp [Server.bulkStep, h]
        rw [List.foldl_cons, hstep]
        have := ih m n ch
        constructor
        · rw [this.1]
          simp [List.filter, hv]
        · rw [this.2]
          simp [List.filter, hv]
      · have hv : Server.entryValid t? = true := by simp [Server.entryValid, h]
        obtain ⟨tr, htr, hid⟩ := Server.normalizeTrip_of_validId m t? now h
        have hstep : Server.bulkStep now (m, n, ch) t?
            = (mapSet m (Server.entryId t?) tr, n + 1, ch ++ [tr]) := by
          simp [Server.bulkStep, h, htr]
        rw [List.foldl_cons, hstep]
        have := ih (mapSet m (Server.entryId t?) tr) (n + 1) (ch ++ [tr])
        constructor
        · rw [this.1]
          simp [List.filter, hv]
          omega
        · rw [this.2]
          simp [List.filter, hv, hid]

/-- C7, amended: for every bulk request whose `trips` array is non-empty,
entries without a resolvable id are skipped, the response is
`{ok: true, upserted: n}` with `n` the number of accepted entries, and the
handler emits exactly one `trip:bulk` event (after the disk write) carrying
one normalized record per accepted entry, in request order, with the accepted
ids; an empty `trips` array instead responds `upserted: 0` with no event. -/
theorem claim_C7_bulk (st : Server.ServerState) (trips : List (Option RawTrip)) (now : Nat)
    (hne : trips ≠ []) :
    (Server.bulkUpsert st (some trips) now).2.2
      = Server.Response.bulkOk ((trips.filter Server.entryValid).length) ∧
    ∃ ts : List Trip,
      (Server.bulkUpsert st (some trips) now).2.1
        = [Server.Effect.diskWrite (Server.bulkUpsert st (some trips) now).1.trips,
            Server.Effect.emit ("trip:bulk") (Server.EmitPayload.many ts)] ∧
      ts.map Trip.id = (trips.filter Server.entryValid).map Server.entryId := by
  have hie : trips.isEmpty = false := by
    cases trips
    · exact absurd rfl hne
    · rfl
  have hspec := Server.bulk_fold_spec now trips st.trips 0 []
  constructor
  · simp only [Server.bulkUpsert, Option.getD_some, hie, Bool.false_eq_true, if_false]
    rw [show (trips.foldl (Server.bulkStep now) (st.trips, 0, [])).2.1
        = (trips.filter Server.entryValid).length from by rw [hspec.1]; omega]
  · refine ⟨(trips.foldl (Server.bulkStep now) (st.trips, 0, [])).2.2, ?_, ?_⟩
    · simp only [Server.bulkUpsert, Option.getD_some, hie, Bool.false_eq_true, if_false]
    · have := hspec.2
      simpa using this

/-- Witness for C7 at the spec's example: two valid entries and one without an
id yield `upserted = 2` and one `trip:bulk` event with the two accepted ids. -/
theorem claim_C7_bulk_witness :
    (Server.bulkUpsert ⟨[]⟩ (some [some ⟨some ("a"), none, none, none, none, none, []⟩,
        some ⟨some ("b"), none, none, none, none, none, []⟩,
        some ⟨none, none, none, some ("junk"), none, none, []⟩]) 0).2.2
      = Server.Response.bulkOk 2 ∧
    ∃ ts : List Trip,
      (Server.bulkUpsert ⟨[]⟩ (some [some ⟨some ("a"), none, none, none, none, none, []⟩,
          some ⟨some ("b"), none, none, none, none, none, []⟩,
          some ⟨none, none, none, some ("junk"), none, none, []⟩]) 0).2.1
        = [Server.Effect.diskWrite
            (Server.bulkUpsert ⟨[]⟩ (some [some ⟨some ("a"), none, none, none, none, none, []⟩,
                some ⟨some ("b"), none, none, none, none, none, []⟩,
                some ⟨none, none, none, some ("junk"), none, none, []⟩]) 0).1.trips,
            Server.Effect.emit ("trip:bulk") (Server.EmitPayload.many ts)] ∧
      ts.map Trip.id = ["a", "b"] :=
  claim_C7_bulk ⟨[]⟩ [some ⟨some ("a"), none, none, none, none, none, []⟩,
    some ⟨some ("b"), none, none, none, none, none, []⟩,
    some ⟨none, none, none, some ("junk"), none, none, []⟩] 0 (by decide)

/-- With duplicate-free keys, lookup finds exactly the member entry. -/
theorem lookup_eq_of_mem {β : Type} (l : List (String × β)) (k : String) (v : β)
    (hnd : (l.map Prod.fst).Nodup) (hm : (k, v) ∈ l) : l.lookup k = some v := by
  induction l with
  | nil => cases hm
  | cons p l ih =>
      rcases List.mem_cons.mp hm with h | h
      · cases h
        simp [List.lookup]
      · rw [List.map_cons] at hnd
        obtain ⟨hh, ht⟩ := List.nodup_cons.mp hnd
        have hk : k ≠ p.1 := by
          intro he
          have hkm : k ∈ l.map Prod.fst := List.mem_map.mpr ⟨(k, v), h, rfl⟩
          rw [he] at hkm
          exact hh hkm
        have hb : (k == p.1) = false := by
          simp [hk]
        simp only [List.lookup, hb]
        exact ih ht h

/-- Updating a key that does not occur leaves every entry unchanged. -/
theorem map_update_of_not_mem {β : Type} (l : List (String × β)) (k : String) (v : β)
    (hk : k ∉ l.map Prod.fst) :
    l.map (fun p => if p.1 = k then (k, v) else p) = l := by
  induction l with
  | nil => rfl
  | cons p l ih =>
      rw [List.map_cons, List.mem_cons, not_or] at hk
      have hp : p.1 ≠ k := fun he => hk.1 he.symm
      simp only [List.map_cons, if_neg hp]
      rw [ih hk.2]

/-- Rewriting a member entry of a duplicate-free map to itself is a no-op. -/
theorem map_update_self {β : Type} (l : List (String × β)) (k : String) (v : β)
    (hnd : (l.map Prod.fst).Nodup) (hm : (k, v) ∈ l) :
    l.map (fun p => if p.1 = k then (k, v) else p) = l := by
  induction l with
  | nil => rfl
  | cons p l ih =>
      rw [List.map_cons] at hnd
      obtain ⟨hh, ht⟩ := List.nodup_cons.mp hnd
      rcases List.mem_cons.mp hm with h | h
      · cases h
        simp only [List.map_cons, if_pos rfl]
        rw [map_update_of_not_mem l k v hh]
        simp
      · have hp : p.1 ≠ k := by
          intro he
          have hkm : k ∈ l.map Prod.fst := List.mem_map.mpr ⟨(k, v), h, rfl⟩
          rw [← he] at hkm
          exact hh hkm
        simp only [List.map_cons, if_neg hp]
        rw [ih ht h]

/-- `m[k] = v` is a no-op when `(k, v)` is already the entry for `k`. -/
theorem mapSet_self (m : List (String × Trip)) (k : String) (v : Trip)
    (hnd : (m.map Prod.fst).Nodup) (hm : (k, v) ∈ m) : mapSet m k v = m := by
  have hl : m.lookup k = some v := lookup_eq_of_mem m k v hnd hm
  simp only [mapSet, hl, Option.isSome_some, if_true]
  exact map_update_self m k v hnd hm

/-- `Object.assign` of a duplicate-free field list over itself is the identity. -/
theorem assignFields_self (e : List (String × String)) (hnd : (e.map Prod.fst).Nodup) :
    assignFields e e = e := by
  have h1 : e.map (fun p => match e.lookup p.1 with
      | some v => (p.1, v)
      | none => p) = e := by
    calc e.map (fun p => match e.lookup p.1 with
          | some v => (p.1, v)
          | none => p)
        = e.map id := by
          apply List.map_congr_left
          intro p hp
          rw [lookup_eq_of_mem e p.1 p.2 hnd hp]
          rfl
      _ = e := List.map_id e
  have h2 : e.filter (fun q => (e.lookup q.1).isNone) = [] := by
    apply List.filter_eq_nil_iff.mpr
    intro q hq
    rw [lookup_eq_of_mem e q.1 q.2 hnd hq]
    simp
  simp only [assignFields, h1, h2, List.append_nil]

/-- `Object.assign({}, t, t)` is the identity on a record with duplicate-free
opaque fields. -/
theorem assignTrip_self (t : Trip) (hnd : (t.extra.map Prod.fst).Nodup) :
    assignTrip (some t) t = t := by
  have ho : ∀ (a : Option String), overrideField a a = a := by
    intro a
    cases a <;> rfl
  simp [assignTrip, ho, assignFields_self t.extra hnd]

/-- Merging a duplicate-free canonical map's own records back into it leaves
the map unchanged. -/
theorem mergeIntoGlobal_self (g : List (String × Trip)) (hnd : (g.map Prod.fst).Nodup)
    (l : List Trip) (hl : ∀ t ∈ l, (t.id, t) ∈ g ∧ (t.extra.map Prod.fst).Nodup) :
    Client.mergeIntoGlobal g l = g := by
  induction l with
  | nil => rfl
  | cons t l ih =>
      have h1 := hl t (by simp)
      have hlk : mapGet g t.id = some t := lookup_eq_of_mem g t.id t hnd h1.1
      have hstep : mapSet g t.id (assignTrip (mapGet g t.id) t) = g := by
        rw [hlk, assignTrip_self t h1.2]
        exact mapSet_self g t.id t hnd h1.1
      simp only [Client.mergeIntoGlobal, List.foldl_cons]
      rw [hstep]
      exact ih (fun u hu => hl u (List.mem_cons_of_mem t hu))

/-- Closed form of the rebuild loop: each bucket collects, in map-iteration
order (appending), the map's records that classify into it. -/
theorem getBucket_rebuild_fold (g : List (String × Trip)) :
    ∀ (d : Client.DeskStore) (b : Bucket),
      Client.getBucket (g.foldl (fun s p => Client.pushBucket s (statusBucket p.2.status) p.2) d) b
        = Client.getBucket d b
          ++ ((g.map Prod.snd).filter (fun t => statusBucket t.status == b)) := by
  induction g with
  | nil =>
      intro d b
      simp
  | cons p g ih =>
      intro d b
      rw [List.foldl_cons, ih, Client.getBucket_pushBucket]
      by_cases hb : statusBucket p.2.status = b
      · have hbb : (statusBucket p.2.status == b) = true := by simp [hb]
        simp [List.filter, hb, hbb, List.append_assoc]
      · have hbb : (statusBucket p.2.status == b) = false := by simp [hb]
        simp [List.filter, hb, hbb]

/-- Per-bucket reading of `rebuildBuckets`. -/
theorem getBucket_rebuildBuckets (g : List (String × Trip)) (b : Bucket) :
    Client.getBucket (Client.rebuildBuckets g) b
      = (g.map Prod.snd).filter (fun t => statusBucket t.status == b) := by
  rw [Client.rebuildBuckets, getBucket_rebuild_fold, Client.getBucket_emptyDesk, List.nil_append]

/-- Filtering an id out of a desk store that never held it is a no-op. -/
theorem Client.removeIdAll_of_absent (d : Client.DeskStore) (i : String)
    (h : Client.idAbsent d i) : Client.removeIdAll d i = d := by
  have hf : ∀ b : Bucket,
      (Client.getBucket d b).filter (fun x => !(x.id == i)) = Client.getBucket d b := by
    intro b
    apply List.filter_eq_self.mpr
    intro x hx
    simp [h b x hx]
  cases d with
  | mk p pm a r pv c =>
      simp only [Client.removeIdAll, Client.DeskStore.mk.injEq]
      exact ⟨hf Bucket.pending, hf Bucket.pending_manager, hf Bucket.approved,
        hf Bucket.rejected, hf Bucket.policy_violation, hf Bucket.completed⟩

/-- Closed form of the merge loop over records with fresh, duplicate-free ids:
each bucket collects the classified records in reverse order (prepending),
on top of whatever the bucket already held. -/
theorem getBucket_merge_fold (l : List Trip) :
    ∀ (d : Client.DeskStore), ((l.map Trip.id).Nodup) →
      (∀ t ∈ l, Client.idAbsent d t.id) →
      ∀ b : Bucket,
        Client.getBucket (l.foldl Client.mergeStep d) b
          = (l.filter (fun t => statusBucket t.status == b)).reverse
            ++ Client.getBucket d b := by
  induction l with
  | nil =>
      intro d _ _ b
      simp
  | cons t l ih =>
      intro d hnd habs b
      rw [List.map_cons] at hnd
      obtain ⟨hh, ht⟩ := List.nodup_cons.mp hnd
      have hrm : Client.removeIdAll d t.id = d :=
        Client.removeIdAll_of_absent d t.id (habs t (by simp))
      have hstep : Client.mergeStep d t = Client.unshiftBucket d (statusBucket t.status) t := by
        rw [Client.mergeStep, hrm]
      have habs2 : ∀ u ∈ l, Client.idAbsent (Client.unshiftBucket d (statusBucket t.status) t) u.id := by
        intro u hu b2 x hx
        rw [Client.getBucket_unshiftBucket] at hx
        have hxd : x ∈ Client.getBucket d b2 → x.id ≠ u.id :=
          fun hxm => habs u (List.mem_cons_of_mem t hu) b2 x hxm
        by_cases hbb : statusBucket t.status = b2
        · rw [if_pos hbb] at hx
          rcases List.mem_cons.mp hx with h1 | h1
          · cases h1
            intro he
            exact hh (he ▸ List.mem_map.mpr ⟨u, hu, rfl⟩)
          · exact hxd h1
        · rw [if_neg hbb] at hx
          exact hxd hx
      rw [List.foldl_cons, hstep, ih (Client.unshiftBucket d (statusBucket t.status) t) ht habs2 b,
        Client.getBucket_unshiftBucket]
      by_cases hb : statusBucket t.status = b
      · have hbb : (statusBucket t.status == b) = true := by simp [hb]
        simp [List.filter, hb, hbb]
      · have hbb : (statusBucket t.status == b) = false := by simp [hb]
        simp [List.filter, hb, hbb]

/-- A normalized record whose id is non-empty and already trimmed passes
through the client normalizer unchanged. -/
theorem Client.normalizeTrip_stable (t : Trip) (now : Nat)
    (h1 : jsTrim t.id = t.id) (h2 : t.id ≠ "") :
    Client.normalizeTrip (some (tripToRaw t)) now = some t := by
  have hp : Client.pickedId (tripToRaw t) = t.id := by
    simp [Client.pickedId, tripToRaw, jsOr, h2, h1]
  simp only [Client.normalizeTrip, hp]
  rw [if_neg h2]
  simp [tripToRaw]

/-- Mirroring the raw forms of a list of stable records normalizes back to
exactly those records. -/
theorem Client.normalizeList_stable (now : Nat) (g : List (String × Trip))
    (h : ∀ p ∈ g, jsTrim p.2.id = p.2.id ∧ p.2.id ≠ "") :
    Client.normalizeList (some (g.map (fun p => some (tripToRaw p.2)))) now
      = g.map Prod.snd := by
  induction g with
  | nil => rfl
  | cons p g ih =>
      have hp := h p (by simp)
      have hn := Client.normalizeTrip_stable p.2 now hp.1 hp.2
      have ht := ih (fun u hu => h u (List.mem_cons_of_mem p hu))
      simp only [Client.normalizeList, Option.getD_some, List.map_cons, List.filterMap_cons, hn]
      refine congrArg (List.cons p.2) ?_
      exact ht

/-- A merge-mode mirror of one stable record merges it into the global map
and runs one merge step on the desk store. -/
theorem Client.mirror_single_merge (st : Client.LocalState) (t : Trip) (now : Nat)
    (h1 : jsTrim t.id = t.id) (h2 : t.id ≠ "") :
    (Client.mirrorTripsToLocal st (some [some (tripToRaw t)]) true now).1
      = ⟨Client.mergeIntoGlobal st.global [t], Client.mergeStep st.desk t⟩ := by
  have hn := Client.normalizeTrip_stable t now h1 h2
  have hlist : Client.normalizeList (some [some (tripToRaw t)]) now = [t] := by
    simp [Client.normalizeList, hn]
  simp [Client.mirrorTripsToLocal, hlist, Client.mergeBuckets]

/-- The desk store after a sequence of single-record merge-mode mirrors is the
merge-loop fold of the records, regardless of how the global map evolves. -/
theorem Client.mergeSeq_desk (now : Nat) (l : List (String × Trip)) :
    ∀ (st : Client.LocalState),
      (∀ p ∈ l, jsTrim p.2.id = p.2.id ∧ p.2.id ≠ "") →
      ((l.foldl (fun s p =>
          (Client.mirrorTripsToLocal s (some [some (tripToRaw p.2)]) true now).1) st).desk)
        = (l.map Prod.snd).foldl Client.mergeStep st.desk := by
  induction l with
  | nil =>
      intro st _
      rfl
  | cons p l ih =>
      intro st hl
      have hp := hl p (by simp)
      rw [List.foldl_cons, List.map_cons, List.foldl_cons,
        Client.mirror_single_merge st p.2 now hp.1 hp.2]
      exact ih ⟨Client.mergeIntoGlobal st.global [p.2], Client.mergeStep st.desk p.2⟩
        (fun u hu => hl u (List.mem_cons_of_mem p hu))

/-- C4, counterexample: for a canonical map holding two pending records, a
rebuild-mode apply of its records appends in map order (`[a, b]`) while
merge-mode applies from empty buckets prepend (`[b, a]`), so the bucket lists
are not identical. -/
theorem claim_C4_counterexample :
    ((Client.mirrorTripsToLocal
        ⟨[(("a"), ⟨"a", none, 1, 1, none, none, []⟩), (("b"), ⟨"b", none, 2, 2, none, none, []⟩)],
          Client.emptyDesk⟩
        (some [some (tripToRaw ⟨"a", none, 1, 1, none, none, []⟩),
          some (tripToRaw ⟨"b", none, 2, 2, none, none, []⟩)]) false 10).1.desk
      ≠ ((Client.mirrorTripsToLocal
          ((Client.mirrorTripsToLocal
            ⟨[(("a"), ⟨"a", none, 1, 1, none, none, []⟩), (("b"), ⟨"b", none, 2, 2, none, none, []⟩)],
              Client.emptyDesk⟩
            (some [some (tripToRaw ⟨"a", none, 1, 1, none, none, []⟩)]) true 10).1)
          (some [some (tripToRaw ⟨"b", none, 2, 2, none, none, []⟩)]) true 10).1.desk)) := by
  decide

/-- C4, amended: over a non-empty canonical map of normalized records (trimmed
non-empty ids matching their keys, duplicate-free), a rebuild-mode apply of
all its records yields, in every bucket, exactly the reverse of the list that
merge-mode applies of the same records one at a time produce from empty
buckets — the same members with the same field contents, in opposite order
(rebuild appends in map-iteration order, merge prepends most-recent-first). -/
theorem claim_C4_rebuild_vs_merge (g : List (String × Trip)) (d0 : Client.DeskStore) (now : Nat)
    (hne : g ≠ [])
    (hnd : (g.map Prod.fst).Nodup)
    (hgood : ∀ p ∈ g, p.1 = p.2.id ∧ jsTrim p.2.id = p.2.id ∧ p.2.id ≠ "" ∧
      (p.2.extra.map Prod.fst).Nodup) :
    ∀ b : Bucket,
      Client.getBucket ((Client.mirrorTripsToLocal ⟨g, d0⟩
          (some (g.map (fun p => some (tripToRaw p.2)))) false now).1.desk) b
        = (Client.getBucket ((g.foldl (fun s p =>
              (Client.mirrorTripsToLocal s (some [some (tripToRaw p.2)]) true now).1)
              ⟨g, Client.emptyDesk⟩).desk) b).reverse := by
  intro b
  have hstab : ∀ p ∈ g, jsTrim p.2.id = p.2.id ∧ p.2.id ≠ "" :=
    fun p hp => ⟨(hgood p hp).2.1, (hgood p hp).2.2.1⟩
  have hlist := Client.normalizeList_stable now g hstab
  have hmerge : Client.mergeIntoGlobal g (g.map Prod.snd) = g := by
    apply mergeIntoGlobal_self g hnd
    intro t ht
    obtain ⟨p, hp, rfl⟩ := List.mem_map.mp ht
    have hg := hgood p hp
    refine ⟨?_, hg.2.2.2⟩
    have : (p.2.id, p.2) = p := by
      rw [← hg.1]
    rw [this]
    exact hp
  have hie : (g.map Prod.snd).isEmpty = false := by
    cases g with
    | nil => exact absurd rfl hne
    | cons p g => rfl
  have hLHS : (Client.mirrorTripsToLocal ⟨g, d0⟩
      (some (g.map (fun p => some (tripToRaw p.2)))) false now).1.desk
      = Client.rebuildBuckets g := by
    simp [Client.mirrorTripsToLocal, hlist, hie, hmerge]
  have hRHS : ((g.foldl (fun s p =>
      (Client.mirrorTripsToLocal s (some [some (tripToRaw p.2)]) true now).1)
      ⟨g, Client.emptyDesk⟩).desk)
      = (g.map Prod.snd).foldl Client.mergeStep Client.emptyDesk :=
    Client.mergeSeq_desk now g ⟨g, Client.emptyDesk⟩ hstab
  have hids : ((g.map Prod.snd).map Trip.id).Nodup := by
    have : (g.map Prod.snd).map Trip.id = g.map Prod.fst := by
      rw [List.map_map]
      apply List.map_congr_left
      intro p hp
      exact ((hgood p hp).1).symm
    rw [this]
    exact hnd
  have habs : ∀ t ∈ (g.map Prod.snd), Client.idAbsent Client.emptyDesk t.id := by
    intro t _ b2 x hx
    rw [Client.getBucket_emptyDesk] at hx
    cases hx
  rw [hLHS, hRHS, getBucket_rebuildBuckets,
    getBucket_merge_fold (g.map Prod.snd) Client.emptyDesk hids habs b,
    Client.getBucket_emptyDesk, List.append_nil, List.reverse_reverse]

/-- Witness for C4 at a one-record map with a stale desk store. -/
theorem claim_C4_rebuild_vs_merge_witness :
    Client.getBucket ((Client.mirrorTripsToLocal
        ⟨[(("a"), ⟨"a", none, 1, 1, none, none, []⟩)],
          ⟨[⟨"z", none, 3, 3, none, none, []⟩], [], [], [], [], []⟩⟩
        (some [some (tripToRaw ⟨"a", none, 1, 1, none, none, []⟩)]) false 5).1.desk)
        Bucket.pending
      = (Client.getBucket (([(("a"), ⟨"a", none, 1, 1, none, none, []⟩)].foldl
          (fun s p => (Client.mirrorTripsToLocal s (some [some (tripToRaw p.2)]) true 5).1)
          ⟨[(("a"), ⟨"a", none, 1, 1, none, none, []⟩)], Client.emptyDesk⟩).desk)
          Bucket.pending).reverse :=
  claim_C4_rebuild_vs_merge [(("a"), ⟨"a", none, 1, 1, none, none, []⟩)]
    ⟨[⟨"z", none, 3, 3, none, none, []⟩], [], [], [], [], []⟩ 5
    (by decide) (by decide) (by decide) Bucket.pending

end ETG
